import Mathlib

/-!
Verification development for the reading-assistant repository: a shallow
embedding of its sentence chunker (core/text_utils.py), command normalizer
and voice retry loop (core/stt_commands.py), audio player state
(core/tts_player.py) and the narration session controller (reading/read.py),
together with theorems settling the specification's claims about them.

Strings are modelled as `List Char`; the whitespace class is the ASCII part
of Python's regex class `\s`, and lower-casing is ASCII lower-casing, which
covers every input the claims mention.
-/

namespace Drishtikon

/-- Whitespace test used throughout: the ASCII characters matched by
Python's regex class backslash-s and by str.strip. -/
def isSpaceChar (c : Char) : Bool :=
  c = ' ' || c = '\t' || c = '\n' || c = '\r' || c = '\x0b' || c = '\x0c'

/-- Sentence-terminal punctuation of the chunker's split pattern. -/
def isTermChar (c : Char) : Bool :=
  c = '.' || c = '!' || c = '?'

/-- Python str.strip: drop whitespace from both ends. -/
def stripL (l : List Char) : List Char :=
  ((l.dropWhile isSpaceChar).reverse.dropWhile isSpaceChar).reverse

/-- Python str.lower, restricted to ASCII. -/
def lowerL (l : List Char) : List Char :=
  l.map Char.toLower

/-- Python "space".join: interleave a single space between the pieces. -/
def joinSpace : List (List Char) → List Char
  | [] => []
  | [x] => x
  | x :: y :: rest => x ++ ' ' :: joinSpace (y :: rest)

/-- Bounded check that `needle` starts `hay` (Python substring machinery). -/
def startsWithL : List Char → List Char → Bool
  | [], _ => true
  | _ :: _, [] => false
  | a :: as, b :: bs => a = b && startsWithL as bs

/-- Python `needle in hay`: substring containment. -/
def isInfixL (needle : List Char) : List Char → Bool
  | [] => startsWithL needle []
  | b :: bs => startsWithL needle (b :: bs) || isInfixL needle bs

/-!
## Sentence chunker — core/text_utils.py, split_into_sentences

The split step embeds `re.split(r'(?<=[.!?])\s+', text)`: the text is cut
at every maximal whitespace run whose immediately preceding character is
sentence-terminal punctuation, and the separating whitespace is dropped.
The accumulator holds the current piece reversed; `none` means the scan is
inside a separator's whitespace run.
-/

/-- Lookbehind test of the split pattern: the last character read so far
(head of the reversed accumulator) is sentence-terminal punctuation. -/
def headTermB : List Char → Bool
  | [] => false
  | p :: _ => isTermChar p

/-- Splitting scan of `re.split` with the lookbehind pattern: `some acc` is
the current piece (reversed), `none` means the separator's whitespace run is
being consumed. -/
def pySplitAux : List Char → Option (List Char) → List (List Char)
  | [], none => [[]]
  | [], some acc => [acc.reverse]
  | c :: rest, none =>
      if isSpaceChar c then pySplitAux rest none
      else pySplitAux rest (some [c])
  | c :: rest, some acc =>
      if isSpaceChar c && headTermB acc then
        acc.reverse :: pySplitAux rest none
      else
        pySplitAux rest (some (c :: acc))

/-- The raw chunks of `re.split(r'(?<=[.!?])\s+', text)`. -/
def pySplit (text : List Char) : List (List Char) :=
  pySplitAux text (some [])

/-- The comprehension `[chunk.strip() for chunk in raw_chunks if chunk and chunk.strip()]`. -/
def cleanedChunks (text : List Char) : List (List Char) :=
  (pySplit text).filterMap fun c =>
    if (stripL c).isEmpty then none else some (stripL c)

/-- The merge loop of split_into_sentences: the accumulator holds the output
sentences in reverse; a chunk shorter than `min_len` is appended to the last
output sentence with a single separating space, and the first chunk is always
kept as the first sentence. -/
def mergeShort (min_len : Nat) : List (List Char) → List (List Char) → List (List Char)
  | acc, [] => acc.reverse
  | [], chunk :: rest => mergeShort min_len [chunk] rest
  | prev :: accT, chunk :: rest =>
      if chunk.length < min_len then
        mergeShort min_len ((prev ++ ' ' :: chunk) :: accT) rest
      else
        mergeShort min_len (chunk :: prev :: accT) rest

/-- Embedding of split_into_sentences (core/text_utils.py): split on
sentence-terminal punctuation followed by whitespace, strip each piece,
drop empty pieces, then merge short fragments forward. -/
def split_into_sentences (text : List Char) (min_len : Nat := 10) : List (List Char) :=
  if text.isEmpty then []
  else
    let cleaned := cleanedChunks text
    if cleaned.isEmpty then [] else mergeShort min_len [] cleaned

/-!
Spec-side formulation of the chunker, written from the claim's words for the
refinement comparison: the first piece is always kept; each subsequent piece
of trimmed length strictly below `minLength` is appended to the previous
output sentence with a single separating space, otherwise it starts a new
sentence.  The merge is expressed as a left fold editing the last output.
-/

/-- One merge decision of the claim's description, acting on the forward
output list. -/
def mergeSpecStep (min_len : Nat) (acc : List (List Char)) (chunk : List Char) : List (List Char) :=
  if chunk.length < min_len then
    acc.dropLast ++ [(acc.getLast?.getD []) ++ ' ' :: chunk]
  else
    acc ++ [chunk]

/-- The chunker as the claim describes it: same split-and-clean phase, with
the greedy forward merge written as a fold that keeps the first piece. -/
def chunkSpec (text : List Char) (min_len : Nat := 10) : List (List Char) :=
  if text.isEmpty then []
  else
    match cleanedChunks text with
    | [] => []
    | first :: rest => rest.foldl (mergeSpecStep min_len) [first]

/-!
## Command normalizer — core/stt_commands.py, normalize_command
-/

/-- Canonical voice commands, the keys of VALID_COMMANDS. -/
inductive Command
  | resume
  | quit
  | summary
  deriving DecidableEq, Repr

/-- Accepted substrings of the resume command. -/
def resumeVariants : List (List Char) := ["resume".data, "continue".data, "start".data]

/-- Accepted substrings of the quit command. -/
def quitVariants : List (List Char) := ["quit".data, "exit".data, "end".data, "read".data, "detect".data, "stop".data]

/-- Accepted substrings of the summary command. -/
def summaryVariants : List (List Char) := ["summary".data, "summarize".data, "summarise".data]

/-- The VALID_COMMANDS table in its insertion order. -/
def VALID_COMMANDS : List (Command × List (List Char)) :=
  [(.resume, resumeVariants), (.quit, quitVariants), (.summary, summaryVariants)]

/-- Inner loop of normalize_command: return on the first variant that occurs
in the text. -/
def variantHit (t : List Char) : List (List Char) → Bool
  | [] => false
  | v :: vs => if isInfixL v t then true else variantHit t vs

/-- Outer loop of normalize_command over the command table. -/
def findCommand (t : List Char) : List (Command × List (List Char)) → Option Command
  | [] => none
  | (cmd, vars) :: rest => if variantHit t vars then some cmd else findCommand t rest

/-- Embedding of normalize_command (core/stt_commands.py): falsy input maps
to none, otherwise the lower-cased stripped text is scanned against the
command table in order. -/
def normalize_command : Option (List Char) → Option Command
  | none => none
  | some text =>
      if text.isEmpty then none
      else findCommand (stripL (lowerL text)) VALID_COMMANDS

/-- Spec-side formulation of the normalizer, written from the claim's words:
return the first canonical command in the fixed order Resume, Quit, Summary
for which any accepted substring occurs anywhere in the normalized text. -/
def normalizeSpec : Option (List Char) → Option Command
  | none => none
  | some text =>
      if text.isEmpty then none
      else
        let n := stripL (lowerL text)
        if resumeVariants.any (fun v => isInfixL v n) then some .resume
        else if quitVariants.any (fun v => isInfixL v n) then some .quit
        else if summaryVariants.any (fun v => isInfixL v n) then some .summary
        else none

/-!
## Voice retry loop — core/stt_commands.py, listen_for_command

The external recognition collaborator is a function from the attempt number
(1-based) to the text it hears; the loop's observable outcome is the value
returned, the number of listen attempts performed, and the number of cached
try-again prompts played on the prompt channel between failed attempts.
-/

/-- Observable outcome of listen_for_command. -/
structure ListenResult where
  result : Option Command
  attempts : Nat
  prompts : Nat
  deriving DecidableEq, Repr

/-- Body of the retry loop: `rem` is max_attempts minus the attempts already
made, `done` the attempts already made, `prompts` the try-again prompts
played so far.  A failed attempt plays the prompt only when attempts remain. -/
def listenGo (recog : Nat → Option (List Char)) : Nat → Nat → Nat → ListenResult
  | 0, done, prompts => ⟨none, done, prompts⟩
  | rem + 1, done, prompts =>
      match normalize_command (recog (done + 1)) with
      | some c => ⟨some c, done + 1, prompts⟩
      | none => listenGo recog rem (done + 1) (if rem = 0 then prompts else prompts + 1)

/-- Embedding of listen_for_command (core/stt_commands.py). -/
def listen_for_command (recog : Nat → Option (List Char)) (max_attempts : Nat := 3) : ListenResult :=
  listenGo recog max_attempts 0 0

/-- The canonical command strings the Python function actually returns. -/
def commandStr : Command → List Char
  | .resume => "resume".data
  | .quit => "quit".data
  | .summary => "summary".data

/-- The value listen_for_command hands to the controller, at the string level
of the Python code. -/
def listenStr (recog : Nat → Option (List Char)) (max_attempts : Nat := 3) : Option (List Char) :=
  (listen_for_command recog max_attempts).result.map commandStr

/-!
## Voice-control dispatch — reading/read.py lines 524-643

The branch the controller takes on the value returned by listen_for_command,
at the Python string level so that the final else branch (announce "unknown
command") is representable.  Each branch's failure-counter increment and the
announcements it plays before any further action are recorded.
-/

/-- Cached announcement prompts of the reading module. -/
inductive CachedP
  | noContentYet
  | genSummary
  | stoppingSummary
  | backPauseMenu
  | exitingModule
  | vcIntro
  | vcUnknown
  | vcBack
  | returnToReading
  | allDone
  deriving DecidableEq, Repr

/-- The five branches of the voice-control if/elif chain. -/
inductive VCBranch
  | onNone
  | onResume
  | onQuit
  | onSummary
  | onUnknown
  deriving DecidableEq, Repr

/-- Which branch of read.py lines 526-643 runs for a given return value of
listen_for_command. -/
def vcDispatch : Option (List Char) → VCBranch
  | none => .onNone
  | some t =>
      if t = "resume".data then .onResume
      else if t = "quit".data then .onQuit
      else if t = "summary".data then .onSummary
      else .onUnknown

/-- How much each branch adds to the voice-mode failure counter. -/
def branchFailureDelta : VCBranch → Nat
  | .onNone => 1
  | .onUnknown => 1
  | _ => 0

/-- The announcements a branch plays on the main channel before taking any
further action: the none branch stops the channels and waits but plays
nothing, the unknown branch plays the unknown-command prompt. -/
def branchAnnouncements : VCBranch → List CachedP
  | .onNone => []
  | .onResume => []
  | .onQuit => [.exitingModule]
  | .onSummary => []
  | .onUnknown => [.vcUnknown]

/-!
## Audio player — core/tts_player.py, TTSPlayer

The thread handle is `some alive` when a playback thread object is stored
and `alive` records whether it is still running; is_playing requires both.
Source validity (a string naming an existing file) is abstracted as a
boolean, matching the isinstance-and-isfile guard.
-/

/-- Observable state of one TTSPlayer instance. -/
structure TTSPlayer where
  thread : Option Bool
  is_paused : Bool
  is_stopped : Bool
  deriving DecidableEq, Repr

/-- The freshly constructed player: no thread, no flags. -/
def TTSPlayer.init : TTSPlayer := ⟨none, false, false⟩

/-- Embedding of TTSPlayer.is_playing: a thread handle is stored and alive. -/
def TTSPlayer.is_playing (p : TTSPlayer) : Bool :=
  match p.thread with
  | some alive => alive
  | none => false

/-- Embedding of TTSPlayer.stop: when a thread handle is stored the stop and
un-pause flags are set (and a hardware abort is issued); the handle is then
cleared unconditionally. -/
def TTSPlayer.stop (p : TTSPlayer) : TTSPlayer :=
  if p.thread.isSome then
    { thread := none, is_paused := false, is_stopped := true }
  else
    { p with thread := none }

/-- Embedding of TTSPlayer.play: an invalid source (not a string, or not an
existing file, abstracted as `valid = false`) returns at once, touching
nothing; a valid source first runs stop, then clears both flags and starts a
fresh live playback thread. -/
def TTSPlayer.play (p : TTSPlayer) (valid : Bool) : TTSPlayer :=
  if !valid then p
  else
    let q := p.stop
    { q with is_paused := false, is_stopped := false, thread := some true }

/-!
## Reading session controller — reading/read.py, main, lines 356-678

The chunk loop and its nested interrupt handling are embedded as a labelled
transition system.  A state records the sentence sequence, the history
`read_so_far`, `current_index`, the Python local `sentence` bound at the top
of each chunk-loop iteration, the voice-mode failure counter, the three
channels, and the control point.  Each transition is driven by one external
event (playback finishing, a key line, a menu choice, a voice result) and
emits the exact sequence of channel operations the code performs, in order;
the channel state after a transition is the fold of those operations.
A channel holds the source it was last told to play until it is stopped or
its natural completion is observed (a wait loop or a finish event).
-/

/-- The two beep files of the pause flow. -/
inductive Beep
  | pauseBeep
  | resumeBeep
  deriving DecidableEq, Repr

/-- An audio source handed to a channel: synthesized speech for a text,
synthesized speech for the summary of a source text, a cached prompt, or a
beep file. -/
inductive Audio
  | synth (text : List Char)
  | sumOf (src : List Char)
  | cached (p : CachedP)
  | beep (b : Beep)
  deriving DecidableEq, Repr

/-- What each of the three channels is currently playing. -/
structure Channels where
  main : Option Audio
  summary : Option Audio
  prompt : Option Audio
  deriving DecidableEq, Repr

/-- The channel operations a transition performs, in program order. -/
inductive ChanOp
  | stopMain
  | stopSummary
  | stopPrompt
  | playMain (a : Audio)
  | playSummary (a : Audio)
  | playPrompt (a : Audio)
  | waitMain
  | waitSummary
  deriving DecidableEq, Repr

/-- Effect of one channel operation: stop and wait leave the channel idle,
play installs the new source (TTSPlayer.play stops the old stream first). -/
def applyOp (c : Channels) : ChanOp → Channels
  | .stopMain => { c with main := none }
  | .stopSummary => { c with summary := none }
  | .stopPrompt => { c with prompt := none }
  | .playMain a => { c with main := some a }
  | .playSummary a => { c with summary := some a }
  | .playPrompt a => { c with prompt := some a }
  | .waitMain => { c with main := none }
  | .waitSummary => { c with summary := none }

/-- Effect of a transition's whole operation sequence. -/
def applyTrace (c : Channels) (ops : List ChanOp) : Channels :=
  ops.foldl applyOp c

/-- The stop-all triple the code issues before starting new audio. -/
def stopAll : List ChanOp := [.stopMain, .stopSummary, .stopPrompt]

/-- Control points of the chunk loop. -/
inductive Mode
  | loopTop
  | reading
  | pauseMenu
  | pauseSummary
  | voiceMenu
  | voiceSummary
  | done
  deriving DecidableEq, Repr

/-- Keyboard lines read during the playback monitor loop. -/
inductive Key
  | p
  | v
  | other
  deriving DecidableEq, Repr

/-- Lines read at the pause menu. -/
inductive MenuChoice
  | r
  | m
  | q
  | other
  deriving DecidableEq, Repr

/-- External events driving the controller. -/
inductive Event
  | start
  | mainDone
  | key (k : Key)
  | choice (c : MenuChoice)
  | sumStop
  | sumDone
  | voice (r : Option Command)
  deriving DecidableEq, Repr

/-- Session state of the chunk loop. -/
structure Sess where
  sentences : List (List Char)
  read_so_far : List (List Char)
  current_index : Nat
  sentence : List Char
  failures : Nat
  chans : Channels
  mode : Mode
  deriving DecidableEq, Repr

/-- The voice-mode failure ceiling of read.py. -/
def MAX_FAILURES : Nat := 1

/-- Pair a field-updated state with a transition's operations, folding them
into the channel state. -/
def withOps (s : Sess) (ops : List ChanOp) : Sess × List ChanOp :=
  ({ s with chans := applyTrace s.chans ops }, ops)

/-- One transition of the chunk loop (read.py lines 356-678).  Events that
the code cannot observe at the given control point leave the state unchanged
and perform no channel operation. -/
def stepC (s : Sess) (e : Event) : Sess × List ChanOp :=
  match s.mode, e with
  | .loopTop, .start =>
      if h : s.current_index < s.sentences.length then
        let snt := s.sentences.get ⟨s.current_index, h⟩
        withOps { s with mode := .reading, sentence := snt }
          (stopAll ++ [.playMain (.synth snt)])
      else
        withOps { s with mode := .done }
          (stopAll ++ [.playMain (.cached .allDone), .waitMain])
  | .reading, .mainDone =>
      withOps { s with mode := .loopTop,
                       read_so_far := s.read_so_far ++ [s.sentence],
                       current_index := s.current_index + 1 }
        [.waitMain]
  | .reading, .key .p =>
      withOps { s with mode := .pauseMenu }
        (stopAll ++ [.playPrompt (.beep .pauseBeep)])
  | .reading, .key .v =>
      withOps { s with mode := .voiceMenu, failures := 0 }
        (stopAll ++ [.playMain (.cached .vcIntro), .waitMain])
  | .pauseMenu, .choice .r =>
      withOps { s with mode := .reading }
        (stopAll ++ [.playPrompt (.beep .resumeBeep), .playMain (.synth s.sentence)])
  | .pauseMenu, .choice .m =>
      if s.read_so_far.isEmpty then
        withOps s (stopAll ++ [.playMain (.cached .noContentYet), .waitMain])
      else
        withOps { s with mode := .pauseSummary }
          (stopAll ++ [.playMain (.cached .genSummary), .waitMain] ++
           stopAll ++ [.playSummary (.sumOf (joinSpace s.read_so_far))])
  | .pauseMenu, .choice .q =>
      withOps { s with mode := .done }
        (stopAll ++ [.playMain (.cached .exitingModule), .waitMain])
  | .pauseSummary, .sumStop =>
      withOps { s with mode := .pauseMenu }
        (stopAll ++ [.playMain (.cached .stoppingSummary), .waitMain] ++
         stopAll ++ [.playMain (.cached .backPauseMenu), .waitMain])
  | .pauseSummary, .sumDone =>
      withOps { s with mode := .pauseMenu }
        ([.waitSummary] ++ stopAll ++ [.playMain (.cached .backPauseMenu), .waitMain])
  | .voiceMenu, .voice none =>
      if s.failures + 1 ≥ MAX_FAILURES then
        withOps { s with mode := .reading, failures := s.failures + 1 }
          ((stopAll ++ [.waitMain]) ++
           (stopAll ++ [.playMain (.cached .returnToReading), .waitMain,
                        .playMain (.synth s.sentence)]))
      else
        withOps { s with failures := s.failures + 1 } (stopAll ++ [.waitMain])
  | .voiceMenu, .voice (some .resume) =>
      withOps { s with mode := .reading }
        (stopAll ++ [.playPrompt (.beep .resumeBeep), .playMain (.synth s.sentence)])
  | .voiceMenu, .voice (some .quit) =>
      withOps { s with mode := .done }
        (stopAll ++ [.playMain (.cached .exitingModule), .waitMain])
  | .voiceMenu, .voice (some .summary) =>
      if s.read_so_far.isEmpty then
        withOps s (stopAll ++ [.playMain (.cached .noContentYet), .waitMain])
      else
        withOps { s with mode := .voiceSummary }
          (stopAll ++ [.playMain (.cached .genSummary), .waitMain] ++
           stopAll ++ [.playSummary (.sumOf (joinSpace s.read_so_far))])
  | .voiceSummary, .sumStop =>
      withOps { s with mode := .voiceMenu }
        (stopAll ++ [.playMain (.cached .stoppingSummary), .waitMain] ++
         stopAll ++ [.playMain (.cached .vcBack), .waitMain])
  | .voiceSummary, .sumDone =>
      withOps { s with mode := .voiceMenu }
        ([.waitSummary] ++ stopAll ++ [.playMain (.cached .vcBack), .waitMain])
  | _, _ => (s, [])

/-- The state at line 356-357 of read.py: empty history, index zero, all
channels quiescent, about to test the loop condition. -/
def initSess (sentences : List (List Char)) : Sess :=
  { sentences := sentences, read_so_far := [], current_index := 0,
    sentence := [], failures := 0,
    chans := ⟨none, none, none⟩, mode := .loopTop }

/-- Reachable session states: the initial state and everything a transition
produces from a reachable state. -/
inductive Reach : Sess → Prop
  | init (sentences : List (List Char)) : Reach (initSess sentences)
  | step (s : Sess) (e : Event) : Reach s → Reach (stepC s e).1

/-- Session invariant: history is the prefix of the sentence sequence of
length current_index; away from the loop head and the terminal state the
Python local `sentence` is the sentence at current_index; and whenever the
summary channel is active the other two channels are idle. -/
def SInv (s : Sess) : Prop :=
  s.read_so_far = s.sentences.take s.current_index ∧
  (s.mode ≠ .loopTop → s.mode ≠ .done → s.sentences.get? s.current_index = some s.sentence) ∧
  (s.chans.summary ≠ none → s.chans.main = none ∧ s.chans.prompt = none)

theorem take_push_of_getElem {α : Type} (l : List α) (n : Nat) (x : α)
    (h : l[n]? = some x) : l.take n ++ [x] = l.take (n + 1) := by
  obtain ⟨hn, hx⟩ := List.getElem?_eq_some.mp h
  subst hx
  exact List.take_concat_get' l n hn

set_option linter.unnecessarySeqFocus false in
theorem reach_inv (s : Sess) (h : Reach s) : SInv s := by
  induction h with
  | init sentences => refine ⟨by simp [initSess], by simp [initSess], by simp [initSess]⟩
  | step s e hr ih =>
      obtain ⟨sent, hist, idx, snt, fl, ch, m⟩ := s
      obtain ⟨ih1, ih2, ih3⟩ := ih
      cases m <;>
        rcases e with _ | _ | (_ | _ | _) | (_ | _ | _ | _) | _ | _ | (_ | (_ | _ | _)) <;>
        simp_all [stepC, withOps, SInv, applyTrace, applyOp, stopAll, MAX_FAILURES] <;>
        (try split) <;>
        (try simp_all) <;>
        (try exact take_push_of_getElem _ _ _ ih2)

/-- A small concrete session used to instantiate the controller theorems. -/
def demoSentences : List (List Char) :=
  ["First sentence.".data, "Second one.".data]

/-- The demo session after the loop top starts narrating sentence 0. -/
def demoS1 : Sess := (stepC (initSess demoSentences) Event.start).1

/-- The demo session after the user presses p during sentence 0. -/
def demoS2 : Sess := (stepC demoS1 (Event.key Key.p)).1

/-- The demo session right after choosing r (resume) at the pause menu. -/
def demoS3 : Sess := (stepC demoS2 (Event.choice MenuChoice.r)).1

/-- C1: every transition out of the pause menu or voice control that
re-enters the Reading state hands the main channel audio synthesized from
the full text of the sentence at current_index, and leaves current_index
unchanged by the detour. -/
theorem resume_restarts_current_sentence (s : Sess) (e : Event) (hr : Reach s)
    (hm : s.mode = Mode.pauseMenu ∨ s.mode = Mode.voiceMenu)
    (he : (stepC s e).1.mode = Mode.reading) :
    (stepC s e).1.chans.main = some (Audio.synth s.sentence) ∧
    s.sentences.get? s.current_index = some s.sentence ∧
    (stepC s e).1.current_index = s.current_index := by
  obtain ⟨-, h2, -⟩ := reach_inv s hr
  obtain ⟨sent, hist, idx, snt, fl, ch, m⟩ := s
  cases m <;>
    rcases e with _ | _ | (_ | _ | _) | (_ | _ | _ | _) | _ | _ | (_ | (_ | _ | _)) <;>
    simp_all [stepC, withOps, applyTrace, applyOp, stopAll, MAX_FAILURES] <;>
    (try split at he) <;> (try simp_all)

/-- Witness for C1: resuming from the pause menu of the demo session replays
the current sentence in full with the index unchanged. -/
theorem resume_restarts_current_sentence_witness :
    (stepC demoS2 (Event.choice MenuChoice.r)).1.chans.main = some (Audio.synth demoS2.sentence) ∧
    demoS2.sentences.get? demoS2.current_index = some demoS2.sentence ∧
    (stepC demoS2 (Event.choice MenuChoice.r)).1.current_index = demoS2.current_index :=
  resume_restarts_current_sentence demoS2 (Event.choice MenuChoice.r)
    (Reach.step _ _ (Reach.step _ _ (Reach.init _))) (Or.inl rfl) rfl

/-- C2: at every reachable state the history read_so_far is exactly the
prefix of the sentence sequence of length current_index, and the pair
(history, current_index) changes only on natural completion of a sentence
in the Reading state, where the current sentence is appended and the index
incremented atomically; every other transition leaves both untouched. -/
theorem history_matches_prefix :
    (∀ s, Reach s → s.read_so_far = s.sentences.take s.current_index) ∧
    (∀ s e,
      (s.mode = Mode.reading ∧ e = Event.mainDone ∧
        (stepC s e).1.read_so_far = s.read_so_far ++ [s.sentence] ∧
        (stepC s e).1.current_index = s.current_index + 1) ∨
      ((stepC s e).1.read_so_far = s.read_so_far ∧
        (stepC s e).1.current_index = s.current_index)) := by
  constructor
  · intro s hs
    exact (reach_inv s hs).1
  · intro s e
    obtain ⟨sent, hist, idx, snt, fl, ch, m⟩ := s
    cases m <;>
      rcases e with _ | _ | (_ | _ | _) | (_ | _ | _ | _) | _ | _ | (_ | (_ | _ | _)) <;>
      simp [stepC, withOps, applyTrace, applyOp, stopAll, MAX_FAILURES] <;>
      (try split) <;> simp

/-- Counterexample to C3: after the pause-resume transition of the demo
session the state is reachable, yet the main channel is playing the resumed
sentence while the prompt channel is still playing the resume beep that the
controller started between its stop-all and the main play and never stopped
or awaited — two distinct channels are simultaneously playing at an
observable instant. -/
theorem two_channels_active_after_resume :
    Reach demoS3 ∧
    demoS3.chans.main = some (Audio.synth "First sentence.".data) ∧
    demoS3.chans.prompt = some (Audio.beep Beep.resumeBeep) :=
  ⟨Reach.step _ _ (Reach.step _ _ (Reach.step _ _ (Reach.init _))), rfl, rfl⟩

/-- C3 as amended: every transition that enters the Reading state does open
with the stop-all triple, and the summary channel is never active together
with another channel; but the resume transitions then restart the prompt
channel (resume beep) before the main play, so only summary-exclusivity,
not full mutual exclusion, holds at observable instants. -/
theorem stops_open_reading_transitions :
    (∀ s e, s.mode ≠ Mode.reading → (stepC s e).1.mode = Mode.reading →
      (stepC s e).2.take 3 = stopAll) ∧
    (∀ s, Reach s → s.chans.summary ≠ none →
      s.chans.main = none ∧ s.chans.prompt = none) := by
  constructor
  · intro s e hm he
    obtain ⟨sent, hist, idx, snt, fl, ch, m⟩ := s
    cases m <;>
      rcases e with _ | _ | (_ | _ | _) | (_ | _ | _ | _) | _ | _ | (_ | (_ | _ | _)) <;>
      simp_all [stepC, withOps, applyTrace, applyOp, stopAll, MAX_FAILURES] <;>
      (try split at he) <;> (try split) <;> (try simp_all)
  · intro s hs
    exact (reach_inv s hs).2.2

/-- The reverse-accumulator merge loop computes the claim's left fold: for a
non-empty accumulator the pending output is the accumulator reversed. -/
theorem mergeShort_eq_foldl (n : Nat) :
    ∀ (rest acc : List (List Char)), acc ≠ [] →
      mergeShort n acc rest = rest.foldl (mergeSpecStep n) acc.reverse := by
  intro rest
  induction rest with
  | nil => intro acc _; simp [mergeShort]
  | cons chunk rest ih =>
      intro acc hacc
      match acc, hacc with
      | prev :: accT, _ =>
        by_cases hlen : chunk.length < n
        · have step_eq : mergeSpecStep n ((prev :: accT).reverse) chunk =
              ((prev ++ ' ' :: chunk) :: accT).reverse := by
            simp [mergeSpecStep, hlen, List.dropLast_concat, List.getLast?_concat]
          rw [List.foldl_cons, step_eq, mergeShort, if_pos hlen,
            ih ((prev ++ ' ' :: chunk) :: accT) (by simp)]
        · have step_eq : mergeSpecStep n ((prev :: accT).reverse) chunk =
              (chunk :: prev :: accT).reverse := by
            simp [mergeSpecStep, hlen]
          rw [List.foldl_cons, step_eq, mergeShort, if_neg hlen,
            ih (chunk :: prev :: accT) (by simp)]

/-- C4: the chunker agrees everywhere with the claim's description — split on
sentence-terminal punctuation followed by whitespace, trim and drop empty
pieces, keep the first piece unconditionally, merge each later short piece
into the previous output with one separating space — and on the input
"Hi. Dr. Smith left. Ok." with minLength 10 it returns exactly the two
sentences "Hi. Dr." and "Smith left. Ok.". -/
theorem chunker_meets_spec :
    (∀ text n, split_into_sentences text n = chunkSpec text n) ∧
    split_into_sentences "Hi. Dr. Smith left. Ok.".data 10 =
      ["Hi. Dr.".data, "Smith left. Ok.".data] := by
  constructor
  · intro text n
    unfold split_into_sentences chunkSpec
    by_cases ht : text.isEmpty
    · simp [ht]
    · simp only [ht, if_false]
      rcases hc : cleanedChunks text with _ | ⟨first, rest⟩
      · simp
      · rw [show mergeShort n [] (first :: rest) = mergeShort n [first] rest from rfl,
          mergeShort_eq_foldl n rest [first] (by simp)]
        simp
  · rfl

/-- Whitespace is never sentence-terminal punctuation. -/
theorem not_term_of_space (c : Char) (h : isSpaceChar c = true) : isTermChar c = false := by
  simp only [isSpaceChar, Bool.or_eq_true, decide_eq_true_eq] at h
  rcases h with ((((rfl | rfl) | rfl) | rfl) | rfl) | rfl <;> decide

/-- On all-whitespace input the splitting scan never cuts: the whole text
stays one piece. -/
theorem pySplitAux_all_space :
    ∀ (text acc : List Char), (∀ c ∈ text, isSpaceChar c) → (∀ c ∈ acc, isSpaceChar c) →
      pySplitAux text (some acc) = [acc.reverse ++ text] := by
  intro text
  induction text with
  | nil => intro acc _ _; simp [pySplitAux]
  | cons c rest ih =>
      intro acc htext hacc
      have hguard : (isSpaceChar c && headTermB acc) = false := by
        match acc with
        | [] => simp [headTermB]
        | p :: accT =>
            have := not_term_of_space p (hacc p (by simp))
            simp [headTermB, this]
      rw [pySplitAux, if_neg (by simp [hguard]),
        ih (c :: acc) (fun x hx => htext x (by simp [hx]))
          (fun x hx => by
            rcases List.mem_cons.mp hx with rfl | hx
            · exact htext x (by simp)
            · exact hacc x hx)]
      simp

/-- All-whitespace stripping yields the empty list. -/
theorem stripL_all_space (l : List Char) (h : ∀ c ∈ l, isSpaceChar c) : stripL l = [] := by
  have h1 : l.dropWhile isSpaceChar = [] := List.dropWhile_eq_nil_iff.mpr fun x hx => h x hx
  simp [stripL, h1]

/-- Every piece surviving the clean-up phase is non-empty. -/
theorem mem_cleanedChunks_ne_nil (text : List Char) (s : List Char)
    (hs : s ∈ cleanedChunks text) : s ≠ [] := by
  obtain ⟨c, -, hc⟩ := List.mem_filterMap.mp hs
  by_cases he : (stripL c).isEmpty = true
  · rw [if_pos he] at hc
    exact absurd hc (by simp)
  · rw [if_neg he] at hc
    obtain rfl := Option.some.inj hc
    intro hnil
    exact he (by simp [hnil])

/-- The merge loop preserves non-emptiness of every output sentence. -/
theorem mem_mergeShort_ne_nil (n : Nat) :
    ∀ (rest acc : List (List Char)), (∀ a ∈ acc, a ≠ []) → (∀ c ∈ rest, c ≠ []) →
      ∀ s ∈ mergeShort n acc rest, s ≠ [] := by
  intro rest
  induction rest with
  | nil =>
      intro acc hacc _ s hsmem
      rw [mergeShort] at hsmem
      exact hacc s (List.mem_reverse.mp hsmem)
  | cons chunk rest ih =>
      intro acc hacc hrest s hsmem
      match acc with
      | [] =>
          rw [mergeShort] at hsmem
          exact ih [chunk] (by simpa using hrest chunk (by simp))
            (fun c hc => hrest c (by simp [hc])) s hsmem
      | prev :: accT =>
          rw [mergeShort] at hsmem
          by_cases hlen : chunk.length < n
          · rw [if_pos hlen] at hsmem
            refine ih ((prev ++ ' ' :: chunk) :: accT) ?_
              (fun c hc => hrest c (by simp [hc])) s hsmem
            intro a ha
            rcases List.mem_cons.mp ha with rfl | ha
            · simp
            · exact hacc a (by simp [ha])
          · rw [if_neg hlen] at hsmem
            refine ih (chunk :: prev :: accT) ?_
              (fun c hc => hrest c (by simp [hc])) s hsmem
            intro a ha
            rcases List.mem_cons.mp ha with rfl | ha
            · exact hrest a (by simp)
            · exact hacc a ha

/-- C7: no output sentence of the chunker is empty, and empty or
whitespace-only input yields the empty sequence rather than an error. -/
theorem chunker_never_empty_output :
    (∀ text n s, s ∈ split_into_sentences text n → s ≠ []) ∧
    (∀ text n, (∀ c ∈ text, isSpaceChar c) → split_into_sentences text n = []) := by
  constructor
  · intro text n s hs
    unfold split_into_sentences at hs
    by_cases ht : text.isEmpty
    · simp [ht] at hs
    · simp only [ht, if_false] at hs
      by_cases hc : (cleanedChunks text).isEmpty
      · simp [hc] at hs
      · simp only [hc, if_false] at hs
        exact mem_mergeShort_ne_nil n (cleanedChunks text) [] (by simp)
          (fun c hcm => mem_cleanedChunks_ne_nil text c hcm) s hs
  · intro text n hsp
    unfold split_into_sentences
    by_cases ht : text.isEmpty
    · simp [ht]
    · simp only [ht, if_false]
      have hsplit : pySplit text = [text] := by
        simpa using pySplitAux_all_space text [] hsp (by simp)
      have hclean : cleanedChunks text = [] := by
        rw [cleanedChunks, hsplit]
        simp [stripL_all_space text hsp]
      simp [hclean]

/-- Witness for C7: a concrete non-empty output sentence is non-empty, and a
concrete whitespace-only input chunks to the empty sequence. -/
theorem chunker_never_empty_output_witness :
    "Hi. Dr.".data ≠ ([] : List Char) ∧ split_into_sentences "  ".data 10 = [] :=
  ⟨chunker_never_empty_output.1 "Hi. Dr. Smith left. Ok.".data 10 "Hi. Dr.".data (by decide),
    chunker_never_empty_output.2 "  ".data 10 (by decide)⟩

/-- The inner variant loop is the any-of-the-variants check. -/
theorem variantHit_eq_any (t : List Char) :
    ∀ vs : List (List Char), variantHit t vs = vs.any fun v => isInfixL v t := by
  intro vs
  induction vs with
  | nil => simp [variantHit]
  | cons v vs ih =>
      rw [variantHit]
      by_cases h : isInfixL v t
      · simp [h]
      · simp [h, ih]

/-- C5: the normalizer lower-cases and trims its input, maps null and empty
input to none, and otherwise returns the first canonical command in the
fixed table order Resume, Quit, Summary whose accepted substrings occur
anywhere in the normalized text, none when no substring occurs; with the
claim's four concrete instances. -/
theorem normalize_matches_table :
    (∀ t, normalize_command t = normalizeSpec t) ∧
    normalize_command (some "please RESUME now".data) = some Command.resume ∧
    normalize_command (some "".data) = none ∧
    normalize_command none = none ∧
    normalize_command (some "quit please".data) = some Command.quit := by
  refine ⟨?_, by decide, by decide, rfl, by decide⟩
  intro t
  rcases t with _ | text
  · rfl
  · by_cases ht : text.isEmpty
    · simp [normalize_command, normalizeSpec, ht]
    · simp [normalize_command, normalizeSpec, ht, findCommand, VALID_COMMANDS,
        variantHit_eq_any]

/-- Exhaustion of the retry loop: when the normalizer matches nothing on
any remaining attempt, the loop performs every remaining attempt, plays the
try-again prompt after each failure but the last, and returns none. -/
theorem listenGo_exhaust (recog : Nat → Option (List Char)) :
    ∀ rem done prompts : Nat,
      (∀ j, j < rem → normalize_command (recog (done + 1 + j)) = none) →
      listenGo recog rem done prompts = ⟨none, done + rem, prompts + (rem - 1)⟩ := by
  intro rem
  induction rem with
  | zero => intro done prompts _; simp [listenGo]
  | succ r ih =>
      intro done prompts h
      have h0 : normalize_command (recog (done + 1)) = none := by
        simpa using h 0 (Nat.succ_pos r)
      have hrec := ih (done + 1) (if r = 0 then prompts else prompts + 1) fun j hj => by
        have := h (j + 1) (Nat.succ_lt_succ hj)
        have e : done + 1 + (j + 1) = done + 1 + 1 + j := by omega
        rwa [e] at this
      rw [listenGo, h0, hrec]
      by_cases hr : r = 0
      · subst hr; simp
      · simp only [if_neg hr]
        have e1 : done + 1 + r = done + (r + 1) := by omega
        have e2 : prompts + 1 + (r - 1) = prompts + (r + 1 - 1) := by omega
        rw [e1, e2]

/-- Short-circuit of the retry loop: the first attempt whose recognition
result the normalizer matches returns that command at once, after exactly
that many attempts and one prompt per preceding failure. -/
theorem listenGo_first_hit (recog : Nat → Option (List Char)) (c : Command) :
    ∀ rem k done prompts : Nat, k < rem →
      (∀ j, j < k → normalize_command (recog (done + 1 + j)) = none) →
      normalize_command (recog (done + 1 + k)) = some c →
      listenGo recog rem done prompts = ⟨some c, done + k + 1, prompts + k⟩ := by
  intro rem
  induction rem with
  | zero => intro k done prompts hk; exact absurd hk (Nat.not_lt_zero k)
  | succ r ih =>
      intro k done prompts hk hbefore hhit
      rcases k with _ | k
      · rw [listenGo]
        simp only [Nat.add_zero] at hhit
        rw [hhit]
        simp
      · have h0 : normalize_command (recog (done + 1)) = none := by
          simpa using hbefore 0 (Nat.succ_pos k)
        have hr : r ≠ 0 := by omega
        have hrec := ih k (done + 1) (prompts + 1) (by omega)
          (fun j hj => by
            have := hbefore (j + 1) (Nat.succ_lt_succ hj)
            have e : done + 1 + (j + 1) = done + 1 + 1 + j := by omega
            rwa [e] at this)
          (by
            have e : done + 1 + (k + 1) = done + 1 + 1 + k := by omega
            rwa [e] at hhit)
        rw [listenGo, h0, if_neg hr, hrec]
        have e1 : done + 1 + k + 1 = done + (k + 1) + 1 := by omega
        have e2 : prompts + 1 + k = prompts + (k + 1) := by omega
        rw [e1, e2]

/-- C6: the retry loop normalizes each recognition result in order and
returns the first match immediately; when the normalizer matches nothing on
any attempt it performs exactly max_attempts attempts, plays the try-again
prompt after every failure but the last, and returns none — in particular
three attempts, two prompts and none for an always-unrecognizable
recognizer with the default bound of 3. -/
theorem retry_loop_contract :
    (∀ (recog : Nat → Option (List Char)) (maxA : Nat),
      (∀ j, j < maxA → normalize_command (recog (j + 1)) = none) →
      listen_for_command recog maxA = ⟨none, maxA, maxA - 1⟩) ∧
    (∀ (recog : Nat → Option (List Char)) (maxA k : Nat) (c : Command), k < maxA →
      (∀ j, j < k → normalize_command (recog (j + 1)) = none) →
      normalize_command (recog (k + 1)) = some c →
      listen_for_command recog maxA = ⟨some c, k + 1, k⟩) ∧
    listen_for_command (fun _ => some "zzz".data) 3 = ⟨none, 3, 2⟩ := by
  refine ⟨?_, ?_, by decide⟩
  · intro recog maxA h
    have := listenGo_exhaust recog maxA 0 0 fun j hj => by
      have := h j hj
      have e : 0 + 1 + j = j + 1 := by omega
      rwa [e]
    simpa using this
  · intro recog maxA k c hk hbefore hhit
    have := listenGo_first_hit recog c maxA k 0 0 hk
      (fun j hj => by
        have := hbefore j hj
        have e : 0 + 1 + j = j + 1 := by omega
        rwa [e])
      (by
        have e : 0 + 1 + k = k + 1 := by omega
        rwa [e])
    simpa using this

/-- Witness for C6: an always-unrecognizable recognizer with three attempts
returns none after exactly three attempts, and a recognizer heard saying
quit on the second attempt returns quit after two attempts and one prompt. -/
theorem retry_loop_contract_witness :
    listen_for_command (fun _ => some "xyzzy".data) 3 = ⟨none, 3, 2⟩ ∧
    listen_for_command (fun n => if n = 2 then some "quit please".data else some "xyzzy".data) 3 =
      ⟨some Command.quit, 2, 1⟩ :=
  ⟨retry_loop_contract.1 (fun _ => some "xyzzy".data) 3 (by decide),
    retry_loop_contract.2.1 (fun n => if n = 2 then some "quit please".data else some "xyzzy".data)
      3 1 Command.quit (by decide) (by decide) (by decide)⟩

/-- Counterexample to C8: when recognition hears "blah blah" on every
attempt the normalizer runs each time and never matches, yet the controller
receives none — the same value as retry exhaustion — takes the branch that
plays no announcement at all, and merely counts one failure; no
unknown-command announcement is ever produced for a normalizer mismatch. -/
theorem mismatch_reaches_silent_none_branch :
    listenStr (fun _ => some "blah blah".data) 3 = none ∧
    vcDispatch (listenStr (fun _ => some "blah blah".data) 3) = VCBranch.onNone ∧
    branchAnnouncements VCBranch.onNone = [] ∧
    branchFailureDelta VCBranch.onNone = 1 := by
  refine ⟨by decide, by decide, rfl, rfl⟩

/-- C8 as amended: listen_for_command only ever hands the controller resume,
quit, summary or none, so the unknown-command branch of the voice-control
chain is unreachable; a none result — whether from normalizer mismatches or
plain recognition failure, which the controller cannot distinguish — counts
one failure toward the ceiling and plays no announcement, while the dead
unknown branch would have played the unknown-command prompt. -/
theorem voice_none_branch_counts_failure :
    (∀ (recog : Nat → Option (List Char)) (maxA : Nat),
      vcDispatch (listenStr recog maxA) ≠ VCBranch.onUnknown) ∧
    vcDispatch none = VCBranch.onNone ∧
    branchFailureDelta VCBranch.onNone = 1 ∧
    branchAnnouncements VCBranch.onNone = [] ∧
    branchAnnouncements VCBranch.onUnknown = [CachedP.vcUnknown] := by
  refine ⟨?_, rfl, rfl, rfl, rfl⟩
  intro recog maxA
  rcases h : (listen_for_command recog maxA).result with _ | c
  · simp [listenStr, h, vcDispatch]
  · cases c <;> simp [listenStr, h] <;> decide

/-- Witness for C8's amended theorem: the dispatch of a concrete session's
listen result is not the unknown branch. -/
theorem voice_none_branch_counts_failure_witness :
    vcDispatch (listenStr (fun _ => some "summarize it".data) 3) ≠ VCBranch.onUnknown ∧
    branchFailureDelta VCBranch.onNone = 1 :=
  ⟨voice_none_branch_counts_failure.1 (fun _ => some "summarize it".data) 3,
    voice_none_branch_counts_failure.2.2.1⟩

/-- Counterexample to C9: calling play with an invalid source on a channel
that is currently playing leaves the channel playing — it remains in its
prior state, not Idle as the claim states for every channel state. -/
theorem invalid_play_on_busy_channel :
    TTSPlayer.play ⟨some true, false, false⟩ false = ⟨some true, false, false⟩ ∧
    TTSPlayer.is_playing (TTSPlayer.play ⟨some true, false, false⟩ false) = true :=
  ⟨rfl, rfl⟩

/-- C9 as amended: play with an invalid or missing source changes nothing at
all — no playback thread is started, no stop is issued, every field of the
channel state is untouched — so an Idle channel remains Idle, and a playing
channel keeps playing. -/
theorem invalid_play_is_noop (p : TTSPlayer) :
    TTSPlayer.play p false = p ∧
    (TTSPlayer.is_playing p = false → TTSPlayer.is_playing (TTSPlayer.play p false) = false) := by
  constructor
  · simp [TTSPlayer.play]
  · intro h
    simpa [TTSPlayer.play] using h

/-- Witness for C9's amended theorem: the idle channel stays idle under an
invalid play. -/
theorem invalid_play_is_noop_witness :
    TTSPlayer.play TTSPlayer.init false = TTSPlayer.init ∧
    TTSPlayer.is_playing (TTSPlayer.play TTSPlayer.init false) = false :=
  ⟨(invalid_play_is_noop TTSPlayer.init).1, (invalid_play_is_noop TTSPlayer.init).2 rfl⟩

/-- C10: stop unconditionally clears the thread handle, so after it returns
is_playing is false — hence every controller polling loop of the form
while is_playing sleep exits at once — and stop on a channel whose thread
handle is already cleared changes no state at all. -/
theorem stop_clears_playing (p : TTSPlayer) :
    TTSPlayer.is_playing (TTSPlayer.stop p) = false ∧
    (p.thread = none → TTSPlayer.stop p = p) := by
  obtain ⟨t, pa, st⟩ := p
  constructor
  · cases t <;> simp [TTSPlayer.stop, TTSPlayer.is_playing]
  · intro h
    simp only at h
    subst h
    simp [TTSPlayer.stop]

/-- Witness for C10: a playing channel stops to not-playing, and stopping an
idle channel with no stored handle is the identity. -/
theorem stop_clears_playing_witness :
    TTSPlayer.is_playing (TTSPlayer.stop ⟨some true, false, false⟩) = false ∧
    TTSPlayer.stop TTSPlayer.init = TTSPlayer.init :=
  ⟨(stop_clears_playing ⟨some true, false, false⟩).1,
    (stop_clears_playing TTSPlayer.init).2 rfl⟩

end Drishtikon
